import Mathlib

/-!
Verification of the aisdk-mcp-bridge supervision and bridging layer.

This file gives a shallow embedding of the core logic of the repository:
the Schema Bridge (`jsonSchemaToZod` / `createSchemaForType` in
`src/tools.ts`), the Tool Aggregator / Service (`MCPService` in
`src/service.ts`), the Server Supervisor (`MCPServerManager` in
`src/server.ts`) and the public entry points in `src/index.ts`.

External effects (spawning processes, protocol requests, closing clients)
are modelled by explicit environment parameters that say, per server,
whether the effectful operation succeeds.  TypeScript exceptions are
modelled with `Except`; a function that cannot throw is modelled total.
-/

namespace McpBridge

/-! ## JSON values

The dynamic values flowing through the bridge (tool arguments, schema
`enum` entries, validation results). -/

inductive Json where
  | null : Json
  | bool : Bool → Json
  | num : Int → Json
  | str : String → Json
  | arr : List Json → Json
  | obj : List (String × Json) → Json

mutual

/-- Structural equality of JSON values (JS strict equality on primitives,
extended structurally; used for `z.enum` membership tests). -/
def Json.beq : Json → Json → Bool
  | .null, .null => true
  | .bool a, .bool b => a == b
  | .num a, .num b => a == b
  | .str a, .str b => a == b
  | .arr xs, .arr ys => Json.beqList xs ys
  | .obj fs, .obj gs => Json.beqFields fs gs
  | _, _ => false

def Json.beqList : List Json → List Json → Bool
  | [], [] => true
  | x :: xs, y :: ys => Json.beq x y && Json.beqList xs ys
  | _, _ => false

def Json.beqFields : List (String × Json) → List (String × Json) → Bool
  | [], [] => true
  | (k, v) :: fs, (k', v') :: gs => k == k' && Json.beq v v' && Json.beqFields fs gs
  | _, _ => false

end

/-! ## Zod validators

The subset of zod combinators produced by `src/tools.ts`:
`z.any()`, `z.string()`, `z.number()`, `z.boolean()`, `z.null()`,
`z.enum(...)`, `z.union(...)`, `z.array(...)`, `z.record(...)` and
`z.object(...)` (with per-key `.optional()` recorded as a flag, and a
flag recording whether `.passthrough()` was applied). -/

inductive Zod where
  | zAny : Zod
  | zString : Zod
  | zNumber : Zod
  | zBoolean : Zod
  | zNull : Zod
  | zEnum (vals : List Json) : Zod
  | zUnion (opts : List Zod) : Zod
  | zArray (item : Zod) : Zod
  | zRecord (value : Zod) : Zod
  | zObject (shape : List (String × Zod × Bool)) (passThru : Bool) : Zod

/-- First binding of a key in a JSON object (JS object property lookup). -/
def lookupField (fs : List (String × Json)) (k : String) : Option Json :=
  match fs with
  | [] => none
  | (k', v) :: rest => if k' = k then some v else lookupField rest k

/-- Does an object shape declare the key `k`? -/
def shapeHasKey (shape : List (String × Zod × Bool)) (k : String) : Bool :=
  shape.any (fun e => e.1 = k)

/-- First binding of a key in an association list (JS `Map.get`). -/
def alookup {α : Type} : List (String × α) → String → Option α
  | [], _ => none
  | e :: rest, k => if e.1 = k then some e.2 else alookup rest k

mutual

/-- Zod parse semantics: `parse z j = some out` means validator `z`
accepts input `j` and produces output `out` (zod transforms its input:
a plain `z.object` strips undeclared keys, `.passthrough()` keeps them). -/
def parse : Zod → Json → Option Json
  | .zAny, j => some j
  | .zString, .str s => some (.str s)
  | .zString, _ => none
  | .zNumber, .num n => some (.num n)
  | .zNumber, _ => none
  | .zBoolean, .bool b => some (.bool b)
  | .zBoolean, _ => none
  | .zNull, .null => some .null
  | .zNull, _ => none
  | .zEnum vals, .str s =>
      if vals.any (fun v => Json.beq v (.str s)) then some (.str s) else none
  | .zEnum _, _ => none
  | .zUnion opts, j => parseFirst opts j
  | .zArray item, .arr xs =>
      match parseList item xs with
      | some outs => some (.arr outs)
      | none => none
  | .zArray _, _ => none
  | .zRecord value, .obj fs =>
      match parseFields value fs with
      | some outs => some (.obj outs)
      | none => none
  | .zRecord _, _ => none
  | .zObject shape pt, .obj fs =>
      match parseShape shape fs with
      | some declOut =>
          some (.obj (declOut ++
            (if pt then fs.filter (fun kv => ¬ shapeHasKey shape kv.1) else [])))
      | none => none
  | .zObject _ _, _ => none

/-- `z.union`: the first accepting option wins. -/
def parseFirst : List Zod → Json → Option Json
  | [], _ => none
  | z :: zs, j =>
      match parse z j with
      | some out => some out
      | none => parseFirst zs j

/-- Element-wise parsing for `z.array`. -/
def parseList : Zod → List Json → Option (List Json)
  | _, [] => some []
  | z, x :: xs =>
      match parse z x, parseList z xs with
      | some o, some os => some (o :: os)
      | _, _ => none

/-- Value-wise parsing for `z.record`. -/
def parseFields : Zod → List (String × Json) → Option (List (String × Json))
  | _, [] => some []
  | z, (k, v) :: rest =>
      match parse z v, parseFields z rest with
      | some o, some os => some ((k, o) :: os)
      | _, _ => none

/-- Declared-key checking for `z.object`: a required key must be present
and valid, an optional key may be absent. -/
def parseShape : List (String × Zod × Bool) → List (String × Json) →
    Option (List (String × Json))
  | [], _ => some []
  | (k, sch, opt) :: rest, fs =>
      match lookupField fs k with
      | some v =>
          match parse sch v, parseShape rest fs with
          | some o, some os => some ((k, o) :: os)
          | _, _ => none
      | none => if opt then parseShape rest fs else none

end

/-- Acceptance: the validator does not reject the input. -/
def accepts (z : Zod) (j : Json) : Bool :=
  (parse z j).isSome

/-! ## JSON Schema input grammar

The `JSONSchema7Definition` values consumed by `jsonSchemaToZod` in
`src/tools.ts`, restricted to the fields the code reads: `type` (as a
single type name; the code casts it to `JSONSchema7TypeName`), `enum`,
`properties`, `required`, `items` (single schema or list), `oneOf`,
`anyOf`.  A JSON Schema definition may also be a bare boolean
(`jbool`). `jsonSchemaToZod` additionally accepts `undefined`, modelled
as `Option JSch = none` at the call boundary. -/

inductive JSch where
  | jbool (b : Bool) : JSch
  | jobj (typev : Option String) (enumv : Option (List Json))
      (props : Option (List (String × JSch)))
      (reqd : Option (List String))
      (itemsS : Option JSch) (itemsL : Option (List JSch))
      (oneOfv : Option (List JSch)) (anyOfv : Option (List JSch)) : JSch

/-- JS truthiness of `schema.type` when it holds a type-name string:
`undefined` and the empty string are falsy. -/
def jsTruthyType : Option String → Bool
  | none => false
  | some t => t ≠ ""

/-- `createDefaultSchema` in `src/tools.ts`: `z.any()`. -/
def createDefaultSchema : Zod := .zAny

/-- The hardcoded validator substituted for any property named
`webhook` in `createSchemaForType`:
`z.object({ url: z.string(), headers: z.record(z.string()).optional() })`
(a plain `z.object`, no `.passthrough()`). -/
def webhookFixedSchema : Zod :=
  .zObject [("url", .zString, false), ("headers", .zRecord .zString, true)] false

mutual

/-- `jsonSchemaToZod` in `src/tools.ts`.  `undefined` and boolean
schemas compile to the default accept-anything validator.  A schema
with `oneOf` or `anyOf` present (JS truthiness: even an empty array
enters this branch) compiles its non-boolean branches; with no
compilable branch it falls back to `createSchemaForType` when
`schema.type` is truthy and to the default otherwise; one branch
collapses to that branch, several become a union.  Everything else goes
to `createSchemaForType`.  The surrounding `try/catch` in the source
cannot fire (no reachable sub-operation throws), so the function is
modelled total. -/
def jsonSchemaToZod : Option JSch → Zod
  | none => createDefaultSchema
  | some (.jbool _) => createDefaultSchema
  | some (.jobj typev enumv props reqd itemsS itemsL (some l) _) =>
      comboResult (compileBranches l) typev enumv props reqd itemsS itemsL
  | some (.jobj typev enumv props reqd itemsS itemsL none (some l)) =>
      comboResult (compileBranches l) typev enumv props reqd itemsS itemsL
  | some (.jobj typev enumv props reqd itemsS itemsL none none) =>
      createSchemaForType typev enumv props reqd itemsS itemsL
termination_by s => sizeOf s
decreasing_by all_goals (simp_wf; try omega)

/-- The tail of the `oneOf`/`anyOf` branch: no compilable branch falls
back to `createSchemaForType` when `schema.type` is truthy and to the
default otherwise; exactly one collapses to that branch; several become
a union. -/
def comboResult (subs : List Zod) (typev : Option String)
    (enumv : Option (List Json)) (props : Option (List (String × JSch)))
    (reqd : Option (List String)) (itemsS : Option JSch)
    (itemsL : Option (List JSch)) : Zod :=
  match subs with
  | [] =>
      if jsTruthyType typev then
        createSchemaForType typev enumv props reqd itemsS itemsL
      else createDefaultSchema
  | [z] => z
  | z :: z' :: zs => .zUnion (z :: z' :: zs)
termination_by 2 + sizeOf props + sizeOf itemsS + sizeOf itemsL
decreasing_by all_goals (simp_wf; try omega)

/-- The `.map`/`.filter` over `oneOf`/`anyOf` branches: boolean
branches are mapped to `undefined` and filtered out, others are
compiled recursively. -/
def compileBranches : List JSch → List Zod
  | [] => []
  | .jbool _ :: rest => compileBranches rest
  | s :: rest => jsonSchemaToZod (some s) :: compileBranches rest
termination_by l => 1 + sizeOf l
decreasing_by all_goals (simp_wf; try omega)

/-- `createSchemaForType` in `src/tools.ts`, taking the fields of the
schema object it reads.  Unrecognized or absent `type` (the switch
default) yields the accept-anything validator. -/
def createSchemaForType (typev : Option String) (enumv : Option (List Json))
    (props : Option (List (String × JSch))) (reqd : Option (List String))
    (itemsS : Option JSch) (itemsL : Option (List JSch)) : Zod :=
  match typev with
  | some "string" =>
      match enumv with
      | some vals => if vals.length > 0 then .zEnum vals else .zString
      | none => .zString
  | some "number" => .zNumber
  | some "integer" => .zNumber
  | some "boolean" => .zBoolean
  | some "object" =>
      match props with
      | none => .zRecord .zAny
      | some properties =>
          .zObject (compileProps properties (reqd.getD [])) true
  | some "array" =>
      match itemsL, itemsS with
      | some l, _ => .zArray (.zUnion (compileItems l))
      | none, some s => .zArray (jsonSchemaToZod (some s))
      | none, none => .zArray .zAny
  | some "null" => .zNull
  | _ => .zAny
termination_by 1 + sizeOf props + sizeOf itemsS + sizeOf itemsL
decreasing_by all_goals (simp_wf; try omega)

/-- The property loop of the `object` case: a property named `webhook`
gets the fixed hardcoded validator and is never marked optional; every
other property is compiled recursively and marked optional exactly when
its key is missing from the `required` list.  The per-property
`try/catch` in the source cannot fire, so it is not modelled. -/
def compileProps : List (String × JSch) → List String →
    List (String × Zod × Bool)
  | [], _ => []
  | (k, v) :: rest, reqdKeys =>
      if k = "webhook" then
        ("webhook", webhookFixedSchema, false) :: compileProps rest reqdKeys
      else
        (k, jsonSchemaToZod (some v), !(reqdKeys.contains k))
          :: compileProps rest reqdKeys
termination_by ps _ => 1 + sizeOf ps
decreasing_by all_goals (simp_wf; try omega)

/-- The `schema.items.map(item => jsonSchemaToZod(item, debug))` of the
`array` case (boolean items are compiled, not filtered, here). -/
def compileItems : List JSch → List Zod
  | [] => []
  | s :: rest => jsonSchemaToZod (some s) :: compileItems rest
termination_by l => 1 + sizeOf l
decreasing_by all_goals (simp_wf; try omega)

end

/-! ## Tool Aggregator / Service (`MCPService` in `src/service.ts`)

The singleton's per-server maps are modelled by lists of server names
(the mapped-to client, transport and tool-set objects are irrelevant to
the claims; only which servers own an entry matters).  The effectful
protocol request of `executeFunction` is abstracted by an environment
function giving the outcome of `client.request` per server. -/

/-- The uniform invocation result shape
`{ content: [{type, text}, ...], isError?: boolean }`. -/
structure MCPToolResult where
  content : List (String × String)
  isError : Option Bool

/-- Exceptions that `executeFunction` can propagate to its caller. -/
inductive ExecErr where
  | noClient (server : String)
  | reqFail (msg : String)

/-- `MCPService.executeFunction` (`src/service.ts`): looks up the live
client for the server (throwing when absent), issues the `tools/call`
request, and on a request failure logs the error and rethrows it
(`catch (error) { log(...); throw error; }`). -/
def executeFunction (clients : List String)
    (reqEnv : String → String → Json → Except String MCPToolResult)
    (serverName functionName : String) (args : Json) :
    Except ExecErr MCPToolResult :=
  if clients.contains serverName then
    match reqEnv serverName functionName args with
    | .ok r => .ok r
    | .error e => .error (.reqFail e)
  else .error (.noClient serverName)

/-! ## Server Supervisor (`MCPServerManager` in `src/server.ts`) -/

/-- OS-level view of a spawned child process: whether it has exited,
and whether a kill signal has been requested for it. -/
structure ProcInfo where
  exited : Bool
  killReq : Bool

/-- Supervisor state: the running-handle table (`runningServers`, the
single source of truth for "is this server running"; the Bool records
whether the handle owns a process object) together with the OS process
table for the processes the supervisor spawned (not owned by the code;
kept to observe whether a process has exited). -/
structure MgrState where
  running : List (String × Bool)
  procs : List (String × ProcInfo)

/-- `isServerRunning`: membership in the running-handle table. -/
def isServerRunning (m : MgrState) (name : String) : Bool :=
  (alookup m.running name).isSome

/-- Whether the OS process spawned for `name` has exited. -/
def procExited (m : MgrState) (name : String) : Option Bool :=
  (alookup m.procs name).map ProcInfo.exited

/-- Record a kill signal having been sent to `name`'s process.  Sending
the signal does not make the process exit synchronously; exit is a
separate asynchronous OS event. -/
def markKill (ps : List (String × ProcInfo)) (name : String) :
    List (String × ProcInfo) :=
  ps.map (fun e => if e.1 = name then (e.1, ProcInfo.mk e.2.exited true) else e)

/-- `MCPServerManager.stopServer` (`src/server.ts` lines 570-585): if a
handle exists, call `process.kill()` when a process is attached, then
delete the handle — without awaiting the process `exit`/`close` event.
`killOk name = false` models `kill()` throwing: the exception is caught
and logged, and because the `delete` follows the `kill()` inside the
same `try`, the handle is then left in the table.  The function itself
never throws, so it is total. -/
def stopServer (killOk : String → Bool) (m : MgrState) (name : String) :
    MgrState :=
  match alookup m.running name with
  | none => m
  | some hasProc =>
      if hasProc then
        if killOk name then
          { running := m.running.filter (fun e => e.1 ≠ name),
            procs := markKill m.procs name }
        else m
      else { m with running := m.running.filter (fun e => e.1 ≠ name) }

/-- `MCPServerManager.stopAllServers`: stop every server in a snapshot
of the running-handle table; stop failures never propagate. -/
def stopAllServers (killOk : String → Bool) (m : MgrState) : MgrState :=
  (m.running.map Prod.fst).foldl (stopServer killOk) m

/-! ## `MCPService.cleanup` (`src/service.ts` lines 302-326) -/

/-- Aggregator service state: which servers own an entry in the
`clients`, `transports` and `tools` maps, the `initialized` flag, and
the (possibly never-installed) server manager. -/
structure SvcState where
  clients : List String
  transports : List String
  toolsServers : List String
  initFlag : Bool
  mgr : Option MgrState

/-- `MCPService.cleanup`: first stop all supervised servers (when a
manager was installed), then for each client entry close the client;
when the close succeeds the server's `clients`, `transports` and
`tools` entries are deleted, and when it throws the error is caught and
logged and the three entries are left in place.  Finally the
`initialized` flag is reset.  Nothing in the body can throw to the
caller, so the function is total. -/
def cleanup (killOk closeOk : String → Bool) (st : SvcState) : SvcState :=
  { clients := st.clients.filter (fun s => !(closeOk s)),
    transports := st.transports.filter
      (fun s => !(st.clients.contains s && closeOk s)),
    toolsServers := st.toolsServers.filter
      (fun s => !(st.clients.contains s && closeOk s)),
    initFlag := false,
    mgr := st.mgr.map (stopAllServers killOk) }

/-! ## Configuration and `getMcpTools` (`src/index.ts`, `src/service.ts`) -/

/-- The per-server configuration fields the modelled claims read. -/
structure CfgEntry where
  disabled : Bool

/-- A validated configuration document: `mcpServers` maps server names
to their descriptors (JS object keys, so names are unique). -/
structure Cfg where
  mcpServers : List (String × CfgEntry)

/-- `getMcpTools({serverName})` (`src/index.ts`) composed with
`MCPService.getTools` (`src/service.ts`), on the already-initialized
path and with a server name supplied.  `getMcpTools` first checks that
the name exists in the configuration and throws a
not-found-in-configuration error otherwise; `getTools` then throws a
not-running error when the named server has no running handle, and
otherwise iterates over `[serverName]` only, so the returned tool set
is exactly that server's (`toolsOf name`, abstracting the per-server
tool map and its lazy refetch). -/
def getMcpToolsNamed (cfg : Cfg) (running : List String)
    (toolsOf : String → List String) (name : String) :
    Except String (List String) :=
  if (alookup cfg.mcpServers name).isSome then
    if running.contains name then .ok (toolsOf name)
    else .error ("Server " ++ name ++ " is not running")
  else .error ("Server \"" ++ name ++ "\" not found in configuration")

/-! ## `startAllServers` outcomes and initialization escalation
(`src/server.ts` lines 381-413, `src/index.ts` lines 365-441,
`src/service.ts` lines 253-300)

The per-server effectful outcomes are abstracted by an environment:
whether the start attempt succeeds, whether the protocol client
connects (within its bounded retries), and whether the tool catalogue
fetch succeeds (within its bounded retries). -/

/-- Per-server environment outcomes for one initialization run. -/
structure SrvEnv where
  startOk : Bool
  connectOk : Bool
  toolsOk : Bool

/-- A server reaches Ready when its start, client connection and tool
catalogue fetch all succeed (the per-server pipeline of
`MCPService.initializeServer`). -/
def srvFullOk (e : SrvEnv) : Bool := e.startOk && e.connectOk && e.toolsOk

/-- `MCPServerManager.startAllServers`: one outcome per configured
descriptor.  A disabled descriptor is recorded as `false` without a
start attempt; an already-running server is recorded as `true`; every
other descriptor gets an independent start attempt whose promise
resolves `false` on failure (it never rejects, so `Promise.allSettled`
always collects every sibling's outcome). -/
def startAllServers (cfg : List (String × CfgEntry))
    (running : List String) (startOk : String → Bool) :
    List (String × Bool) :=
  cfg.map (fun e =>
    (e.1, if e.2.disabled then false
          else if running.contains e.1 then true
          else startOk e.1))

/-- `MCPService.initialize` outcome: initializes every non-disabled
server in turn, recording per-server failures, and throws exactly when
no server completed initialization (`anyServerInitialized` stays
false). -/
def svcInitOk (cfg : Cfg) (env : String → SrvEnv) : Bool :=
  cfg.mcpServers.any (fun e => !e.2.disabled && srvFullOk (env e.1))

/-- Whether `initializeMcp` (`src/index.ts`) completes without
throwing, starting from no running servers: it runs `startAllServers`,
throws `No servers started successfully` when every recorded outcome
is a failure, and otherwise runs `MCPService.initialize`, which throws
when no server reaches Ready. -/
def initMcpOk (cfg : Cfg) (env : String → SrvEnv) : Bool :=
  let results := startAllServers cfg.mcpServers [] (fun n => (env n).startOk)
  if results.any (fun r => r.2) then svcInitOk cfg env else false

/-! ## Concurrent `initializeMcp` callers

An interleaving semantics for concurrent calls of `initializeMcp`.
Node's event loop runs each task uninterrupted up to its next `await`,
so a caller is modelled as a sequence of atomic blocks separated by the
suspension points of the source:

* `entry` — the synchronous prefix up to `service.isInitialized()`;
  suspends at `await loadMcpConfig(...)`;
* `loaded` — the synchronous portion of `startAllServers`: for each
  non-disabled descriptor, `startServer` checks the running-handle
  table and the in-flight `startupPromises` memo; when both miss, the
  startup promise's executor runs synchronously through `spawn` and the
  registration of the handle before its first `await`, so the spawn,
  the running-table entry and the memo entry all appear in this block;
  then suspends awaiting settle/health;
* `settling` — startup promises resolve (each `finally` clears its
  memo entry) and `MCPService.initialize` marks the service
  initialized (the all-servers-healthy environment is assumed, as the
  claim is about duplicate spawning, not failures).

A schedule picks which of two callers runs its next block. -/

/-- Shared singleton state seen by concurrent `initializeMcp` calls,
plus instrumentation: every spawn event and every entry into
`startAllServers` is logged. -/
structure InitState where
  initFlag : Bool
  running : List String
  inflight : List String
  startAllCalls : Nat
  spawns : List String

/-- The clean singleton state of a fresh process. -/
def initState0 : InitState :=
  { initFlag := false, running := [], inflight := [], startAllCalls := 0,
    spawns := [] }

/-- Control state of one caller between its atomic blocks. -/
inductive CallerPC where
  | entry : CallerPC
  | loaded : CallerPC
  | settling : CallerPC
  | finished : CallerPC

/-- One iteration of the `startAllServers` loop for descriptor `e`
(entries are `(name, disabled)`): skip disabled servers, skip servers
already in the running table, reuse an in-flight startup promise,
otherwise spawn and register. -/
def startOne (σ : InitState) (e : String × Bool) : InitState :=
  if e.2 then σ
  else if σ.running.contains e.1 then σ
  else if σ.inflight.contains e.1 then σ
  else { σ with
    spawns := σ.spawns ++ [e.1],
    running := σ.running ++ [e.1],
    inflight := σ.inflight ++ [e.1] }

/-- The synchronous portion of `startAllServers` over the whole
config. -/
def startAllSync (cfg : List (String × Bool)) (σ : InitState) : InitState :=
  cfg.foldl startOne σ

/-- Run one caller's next atomic block. -/
def runBlock (cfg : List (String × Bool)) (σ : InitState) :
    CallerPC → InitState × CallerPC
  | .entry => if σ.initFlag then (σ, .finished) else (σ, .loaded)
  | .loaded =>
      (startAllSync cfg { σ with startAllCalls := σ.startAllCalls + 1 },
        .settling)
  | .settling => ({ σ with inflight := [], initFlag := true }, .finished)
  | .finished => (σ, .finished)

/-- Two concurrent callers over the shared singleton state. -/
structure SysState where
  shared : InitState
  pc0 : CallerPC
  pc1 : CallerPC

/-- Run a schedule: `true` steps caller 0, `false` steps caller 1. -/
def runSched (cfg : List (String × Bool)) :
    List Bool → SysState → SysState
  | [], s => s
  | c :: rest, s =>
      if c then
        let r := runBlock cfg s.shared s.pc0
        runSched cfg rest { shared := r.1, pc0 := r.2, pc1 := s.pc1 }
      else
        let r := runBlock cfg s.shared s.pc1
        runSched cfg rest { shared := r.1, pc0 := s.pc0, pc1 := r.2 }

/-- Both callers at their entry points on the clean state. -/
def sysState0 : SysState :=
  { shared := initState0, pc0 := .entry, pc1 := .entry }

/-! ## Concrete instances used by the claim theorems -/

/-- A server with a live client whose `tools/call` request rejects. -/
def clientsC1 : List String := ["srv"]

/-- Upstream behaviour for the C1 failing input: every invocation
request rejects with a transport error. -/
def reqEnvC1 : String → String → Json → Except String MCPToolResult :=
  fun _ _ _ => .error "connection lost"

/-- Configuration for the C6 counterexample: `alpha` is disabled,
`beta` is enabled; neither is running. -/
def cfgC6 : Cfg := ⟨[("alpha", ⟨true⟩), ("beta", ⟨false⟩)]⟩

/-- Supervisor state for the C7 counterexample: one running
process-backed server whose OS process has not exited. -/
def mgrC7 : MgrState := ⟨[("s", true)], [("s", ⟨false, false⟩)]⟩

/-- Service state for the C9 counterexample: one initialized server
whose client close always fails. -/
def stC9 : SvcState := ⟨["s"], ["s"], ["s"], true, some ⟨[], []⟩⟩

/-- Configuration for the C3 counterexample: one enabled server. -/
def cfgC3 : Cfg := ⟨[("s", ⟨false⟩)]⟩

/-- Environment for the C3 counterexample: the server's start attempt
succeeds but its client connection fails. -/
def envC3 : String → SrvEnv := fun _ => ⟨true, false, true⟩

/-- The round-trip schema of C5:
`{type: object, properties: {topic: {type: string}}, required: [topic]}`. -/
def topicSchema : JSch :=
  .jobj (some "object") none
    (some [("topic", .jobj (some "string") none none none none none none none)])
    (some ["topic"]) none none none none

/-- Shorthand for an object schema with declared properties and a
required list (no `enum`, `items` or combinators). -/
def objSchema (P : List (String × JSch)) (R : List String) : JSch :=
  .jobj (some "object") none (some P) (some R) none none none none

/-! ## Auxiliary predicates for the claims -/

/-- Per-server spawn discipline over the concurrent-initialization
state: a server has been spawned exactly once when it is in the
running table and never otherwise. -/
def spawnInv (σ : InitState) : Prop :=
  ∀ n, σ.spawns.count n = (if n ∈ σ.running then 1 else 0)

/-- Is a JSON Schema definition a bare boolean? -/
def isBoolSch : JSch → Bool
  | .jbool _ => true
  | _ => false

/-- Is `schema.type` one of the type names `createSchemaForType`
recognizes? -/
def recognizedType : Option String → Bool
  | none => false
  | some s =>
      s == "string" || s == "number" || s == "integer" || s == "boolean" ||
      s == "object" || s == "array" || s == "null"

/-- A schema that cannot be classified: `undefined`, a bare boolean, a
schema without combinator whose `type` is absent or unrecognized, or a
schema whose `oneOf`/`anyOf` has no compilable (non-boolean) branch and
whose `type` is likewise absent or unrecognized. -/
def unclassifiable : Option JSch → Bool
  | none => true
  | some (.jbool _) => true
  | some (.jobj t _ _ _ _ _ o a) =>
      match o, a with
      | some l, _ => !(recognizedType t) && l.all isBoolSch
      | none, some l => !(recognizedType t) && l.all isBoolSch
      | none, none => !(recognizedType t)

/-! ## Helper lemmas -/

lemma alookup_filter_ne {α : Type} (l : List (String × α)) (name : String)
    (p : String × α → Bool) (hp : ∀ e, p e = true → e.1 ≠ name) :
    alookup (l.filter p) name = none := by
  induction l with
  | nil => rfl
  | cons e rest ih =>
      cases hpe : p e with
      | false => simpa [List.filter_cons, hpe] using ih
      | true =>
          have hne := hp e hpe
          simpa [List.filter_cons, hpe, alookup, hne] using ih

lemma markKill_exited (ps : List (String × ProcInfo)) (name s : String) :
    (alookup (markKill ps name) s).map ProcInfo.exited =
      (alookup ps s).map ProcInfo.exited := by
  induction ps with
  | nil => rfl
  | cons e rest ih =>
      obtain ⟨k, p⟩ := e
      by_cases h : k = name
      · subst h
        by_cases h' : k = s
        · subst h'
          simp [markKill, alookup]
        · simpa [markKill, alookup, h'] using ih
      · by_cases h' : k = s
        · subst h'
          simp [markKill, alookup, h]
        · simpa [markKill, alookup, h, h'] using ih

lemma parseFirst_isSome_iff (opts : List Zod) (j : Json) :
    (parseFirst opts j).isSome = true ↔ ∃ z ∈ opts, (parse z j).isSome = true := by
  induction opts with
  | nil => simp [parseFirst]
  | cons z zs ih =>
      cases h : parse z j with
      | some out => simp [parseFirst, h]
      | none => simpa [parseFirst, h] using ih

lemma parseShape_isSome_iff (shape : List (String × Zod × Bool))
    (fs : List (String × Json)) :
    (parseShape shape fs).isSome = true ↔
      ∀ e ∈ shape,
        (∀ v, lookupField fs e.1 = some v → (parse e.2.1 v).isSome = true) ∧
        (lookupField fs e.1 = none → e.2.2 = true) := by
  induction shape with
  | nil => simp [parseShape]
  | cons ent rest ih =>
      obtain ⟨k, sch, opt⟩ := ent
      rw [List.forall_mem_cons]
      dsimp only
      cases hf : lookupField fs k with
      | some v =>
          have hiff : (parseShape ((k, sch, opt) :: rest) fs).isSome = true ↔
              ((parse sch v).isSome = true ∧ (parseShape rest fs).isSome = true) := by
            cases hp : parse sch v with
            | some o =>
                cases hr : parseShape rest fs with
                | some os => simp [parseShape, hf, hp, hr]
                | none => simp [parseShape, hf, hp, hr]
            | none =>
                cases hr : parseShape rest fs with
                | some os => simp [parseShape, hf, hp, hr]
                | none => simp [parseShape, hf, hp, hr]
          rw [hiff, ih]
          constructor
          · rintro ⟨hp, hrest⟩
            refine ⟨⟨fun w hw => ?_, fun hnone => Option.noConfusion hnone⟩, hrest⟩
            cases hw
            exact hp
          · rintro ⟨⟨h1, _⟩, hrest⟩
            exact ⟨h1 v rfl, hrest⟩
      | none =>
          have hiff : (parseShape ((k, sch, opt) :: rest) fs).isSome = true ↔
              (opt = true ∧ (parseShape rest fs).isSome = true) := by
            by_cases ho : opt = true
            · simp [parseShape, hf, ho]
            · simp [parseShape, hf, ho]
          rw [hiff, ih]
          constructor
          · rintro ⟨ho, hrest⟩
            exact ⟨⟨fun w hw => Option.noConfusion hw, fun _ => ho⟩, hrest⟩
          · rintro ⟨⟨_, h2⟩, hrest⟩
            exact ⟨h2 rfl, hrest⟩

lemma accepts_zObject (shape : List (String × Zod × Bool)) (pt : Bool)
    (fs : List (String × Json)) :
    accepts (.zObject shape pt) (.obj fs) = (parseShape shape fs).isSome := by
  cases h : parseShape shape fs <;> simp [accepts, parse, h]

lemma accepts_zUnion (opts : List Zod) (j : Json) :
    accepts (.zUnion opts) j = true ↔ ∃ z ∈ opts, accepts z j = true := by
  simp only [accepts]
  rw [show parse (.zUnion opts) j = parseFirst opts j from by simp [parse]]
  exact parseFirst_isSome_iff opts j

lemma compileProps_nowebhook (P : List (String × JSch)) (R : List String)
    (h : ∀ kv ∈ P, kv.1 ≠ "webhook") :
    compileProps P R =
      P.map (fun kv => (kv.1, jsonSchemaToZod (some kv.2), !(R.contains kv.1))) := by
  induction P with
  | nil => simp [compileProps]
  | cons kv rest ih =>
      obtain ⟨k, v⟩ := kv
      have hk : k ≠ "webhook" := h (k, v) (by simp)
      rw [List.map_cons]
      rw [show compileProps ((k, v) :: rest) R =
        (k, jsonSchemaToZod (some v), !(R.contains k)) :: compileProps rest R from
          by simp [compileProps, hk]]
      rw [ih (fun kv hkv => h kv (List.mem_cons_of_mem _ hkv))]

lemma compileBranches_nil_of_allBool (l : List JSch)
    (h : l.all isBoolSch = true) : compileBranches l = [] := by
  induction l with
  | nil => simp [compileBranches]
  | cons s rest ih =>
      simp only [List.all_cons, Bool.and_eq_true] at h
      cases s with
      | jbool b => simp [compileBranches, ih h.2]
      | jobj t e p r iS iL o a => simp [isBoolSch] at h

lemma createSchemaForType_unrecognized (t : Option String)
    (e : Option (List Json)) (p : Option (List (String × JSch)))
    (r : Option (List String)) (iS : Option JSch) (iL : Option (List JSch))
    (h : recognizedType t = false) :
    createSchemaForType t e p r iS iL = .zAny := by
  rw [createSchemaForType.eq_def]
  split <;> simp_all [recognizedType]

lemma startOne_spawnInv (σ : InitState) (e : String × Bool)
    (h : spawnInv σ) : spawnInv (startOne σ e) := by
  intro n
  unfold startOne
  by_cases h1 : e.2 = true
  · simpa [h1] using h n
  · by_cases h2 : e.1 ∈ σ.running
    · simpa [h1, h2] using h n
    · by_cases h3 : e.1 ∈ σ.inflight
      · simpa [h1, h2, h3] using h n
      · by_cases hn : n = e.1
        · subst hn
          have hc := h e.1
          rw [if_neg h2] at hc
          simp [h1, h2, h3, List.count_append, hc]
        · have hc := h n
          simp [h1, h2, h3, List.count_append, hn, hc]

lemma startAllSync_spawnInv (cfg : List (String × Bool)) :
    ∀ σ, spawnInv σ → spawnInv (startAllSync cfg σ) := by
  induction cfg with
  | nil => intro σ h; simpa [startAllSync] using h
  | cons e rest ih =>
      intro σ h
      rw [show startAllSync (e :: rest) σ = startAllSync rest (startOne σ e)
        from by simp [startAllSync]]
      exact ih _ (startOne_spawnInv σ e h)

lemma runBlock_spawnInv (cfg : List (String × Bool)) (σ : InitState)
    (pc : CallerPC) (h : spawnInv σ) : spawnInv (runBlock cfg σ pc).1 := by
  cases pc with
  | entry =>
      by_cases hi : σ.initFlag = true
      · intro n; simpa [runBlock, hi] using h n
      · intro n; simpa [runBlock, hi] using h n
  | loaded =>
      simp only [runBlock]
      exact startAllSync_spawnInv cfg _ (fun n => by simpa using h n)
  | settling => intro n; simpa [runBlock] using h n
  | finished => exact h

lemma runSched_spawnInv (cfg : List (String × Bool)) :
    ∀ (sched : List Bool) (s : SysState), spawnInv s.shared →
      spawnInv (runSched cfg sched s).shared := by
  intro sched
  induction sched with
  | nil => intro s h; exact h
  | cons c rest ih =>
      intro s h
      cases c <;> simp only [runSched] <;>
        exact ih _ (runBlock_spawnInv cfg _ _ h)

lemma runBlock_ready (cfg : List (String × Bool)) (σ : InitState)
    (p : CallerPC) (hi : σ.initFlag = true)
    (hp : p = .entry ∨ p = .finished) :
    (runBlock cfg σ p).1 = σ ∧ (runBlock cfg σ p).2 = .finished := by
  rcases hp with h | h <;> subst h <;> simp [runBlock, hi]

lemma runSched_ready (cfg : List (String × Bool)) :
    ∀ (sched : List Bool) (σ : InitState) (p0 p1 : CallerPC),
      σ.initFlag = true → (p0 = .entry ∨ p0 = .finished) →
      (p1 = .entry ∨ p1 = .finished) →
      (runSched cfg sched ⟨σ, p0, p1⟩).shared = σ := by
  intro sched
  induction sched with
  | nil => intros; rfl
  | cons c rest ih =>
      intro σ p0 p1 hi h0 h1
      cases c with
      | true =>
          obtain ⟨hσ, hp⟩ := runBlock_ready cfg σ p0 hi h0
          simp only [runSched, if_pos rfl]
          rw [hσ, hp]
          exact ih σ .finished p1 hi (Or.inr rfl) h1
      | false =>
          obtain ⟨hσ, hp⟩ := runBlock_ready cfg σ p1 hi h1
          simp only [runSched]
          rw [if_neg (by simp), hσ, hp]
          exact ih σ p0 .finished hi h0 (Or.inr rfl)

/-! ## Claim theorems -/

/-- C1: at the failing input (server `srv` has a live client and the
upstream `client.request` rejects with `connection lost`),
`executeFunction` propagates the failure as an exception
(`Except.error`) to its caller instead of returning an in-band
`{content, isError: true}` result: the source logs the error and
rethrows it.  This contradicts the claim (and the repository's own
error-handling documentation), so the claim is recorded as a code bug,
witnessed by this evaluation. -/
theorem c1_invocation_failure_rethrown :
    executeFunction clientsC1 reqEnvC1 "srv" "scrape" (.obj []) =
      .error (.reqFail "connection lost") := rfl

/-- C6 counterexample: a disabled configured server (`alpha`) that is
not running fails with exactly the generic not-running reason
`Server alpha is not running` — the same reason template an enabled
but stopped server (`beta`) receives — so no disabled-specific reason
distinct from "not running" exists, contrary to the claim. -/
theorem c6_disabled_server_gets_generic_not_running_error :
    getMcpToolsNamed cfgC6 [] (fun _ => []) "alpha" =
      .error "Server alpha is not running" ∧
    getMcpToolsNamed cfgC6 [] (fun _ => []) "beta" =
      .error "Server beta is not running" := ⟨rfl, rfl⟩

/-- C6 (amended): with a server name, `getMcpTools` returns only that
server's tools and fails fast with two distinct reasons: a
not-found-in-configuration error when the name is absent from the
configuration, and a not-running error when the server is configured
but has no running handle; a disabled server that is not running gets
the same not-running reason (there is no disabled-specific reason). -/
theorem c6_named_lookup_error_taxonomy :
    ∀ (cfg : Cfg) (running : List String) (toolsOf : String → List String)
      (name : String),
      (alookup cfg.mcpServers name = none →
        getMcpToolsNamed cfg running toolsOf name =
          .error ("Server \"" ++ name ++ "\" not found in configuration")) ∧
      ((alookup cfg.mcpServers name).isSome = true →
        running.contains name = false →
        getMcpToolsNamed cfg running toolsOf name =
          .error ("Server " ++ name ++ " is not running")) ∧
      ((alookup cfg.mcpServers name).isSome = true →
        running.contains name = true →
        getMcpToolsNamed cfg running toolsOf name = .ok (toolsOf name)) ∧
      ("Server \"ghost\" not found in configuration" : String) ≠
        "Server ghost is not running" := by
  intro cfg running toolsOf name
  refine ⟨?_, ?_, ?_, ?_⟩
  · intro h
    simp [getMcpToolsNamed, h]
  · intro h hr
    have hr' : name ∉ running := by simpa using hr
    simp [getMcpToolsNamed, h, hr']
  · intro h hr
    have hr' : name ∈ running := by simpa using hr
    simp [getMcpToolsNamed, h, hr']
  · decide

/-- C6 witness: evaluating the amended taxonomy on concrete inputs:
a running configured server returns its own tools. -/
theorem c6_named_lookup_error_taxonomy_witness :
    getMcpToolsNamed cfgC6 ["beta"] (fun _ => ["t1"]) "beta" = .ok ["t1"] :=
  (c6_named_lookup_error_taxonomy cfgC6 ["beta"] (fun _ => ["t1"]) "beta").2.2.1
    (by decide) (by decide)

/-- C7 counterexample: `stopServer` sends the kill signal and deletes
the handle without awaiting process exit: immediately after it
returns, `isRunning` is already false while the OS process has not yet
exited, contradicting the claim that stop awaits process exit before
confirming removal. -/
theorem c7_stop_returns_before_exit :
    isServerRunning (stopServer (fun _ => true) mgrC7 "s") "s" = false ∧
    procExited (stopServer (fun _ => true) mgrC7 "s") "s" = some false :=
  ⟨rfl, rfl⟩

/-- C7 (amended): `stopServer` never throws (it is total); when the
kill succeeds (or the handle owns no process) the handle is removed
immediately, without awaiting process exit, so `isRunning` is false
afterwards while the exit status of every process is untouched; when
the kill itself throws, the error is only logged and the handle stays
in the table. -/
theorem c7_stop_removal_and_error_policy :
    ∀ (killOk : String → Bool) (m : MgrState) (name : String),
      (alookup m.running name = some true → killOk name = true →
        isServerRunning (stopServer killOk m name) name = false) ∧
      (alookup m.running name = some true → killOk name = false →
        stopServer killOk m name = m) ∧
      (alookup m.running name = some false →
        isServerRunning (stopServer killOk m name) name = false) ∧
      (alookup m.running name = none → stopServer killOk m name = m) ∧
      (∀ s, procExited (stopServer killOk m name) s = procExited m s) := by
  intro killOk m name
  refine ⟨?_, ?_, ?_, ?_, ?_⟩
  · intro h hk
    simp only [stopServer, h, hk, isServerRunning, if_true]
    rw [alookup_filter_ne _ _ _ (fun e he => by simpa using he)]
    rfl
  · intro h hk
    simp [stopServer, h, hk]
  · intro h
    have hstep : stopServer killOk m name =
        { m with running := m.running.filter (fun e => e.1 ≠ name) } := by
      simp [stopServer, h]
    rw [hstep]
    simp only [isServerRunning]
    rw [alookup_filter_ne _ _ _ (fun e he => by simpa using he)]
    rfl
  · intro h
    simp [stopServer, h]
  · intro s
    unfold stopServer
    cases h : alookup m.running name with
    | none => rfl
    | some hasProc =>
        by_cases hp : hasProc = true <;> by_cases hk : killOk name = true <;>
          simp [hp, hk, procExited, markKill_exited]

/-- C7 witness: evaluating the amended stop contract on a concrete
running server whose kill succeeds. -/
theorem c7_stop_removal_and_error_policy_witness :
    isServerRunning
      (stopServer (fun _ => true) ⟨[("w", true)], []⟩ "w") "w" = false :=
  (c7_stop_removal_and_error_policy (fun _ => true) ⟨[("w", true)], []⟩ "w").1
    (by decide) rfl

/-- C9 counterexample: when a client's `close()` throws, `cleanup`
catches and logs the error (so no error is produced) and resets the
initialized flag, but the failing server's entry is left in the
`clients` map — even after calling `cleanup` twice — contradicting the
claim that after each call the client, transport and tool maps are
released. -/
theorem c9_failed_close_leaves_entries :
    (cleanup (fun _ => true) (fun _ => false) stC9).initFlag = false ∧
    (cleanup (fun _ => true) (fun _ => false) stC9).clients = ["s"] ∧
    (cleanup (fun _ => true) (fun _ => false)
      (cleanup (fun _ => true) (fun _ => false) stC9)).clients = ["s"] :=
  ⟨rfl, rfl, rfl⟩

/-- C9 (amended): `cleanup` never produces an error (it is total, all
failures being caught and logged), is safe to call repeatedly and
before initialization ever ran (`mgr = none`), and always leaves the
service Uninitialized; map entries are released exactly for the
clients whose close succeeds, while a failing close leaves that
server's entries in place. -/
theorem c9_cleanup_idempotent_and_safe :
    ∀ (killOk closeOk : String → Bool) (st : SvcState),
      (cleanup killOk closeOk st).initFlag = false ∧
      (cleanup killOk closeOk (cleanup killOk closeOk st)).initFlag = false ∧
      (∀ s, closeOk s = true → s ∉ (cleanup killOk closeOk st).clients) ∧
      (∀ s, s ∈ st.clients → closeOk s = true →
        s ∉ (cleanup killOk closeOk st).transports ∧
        s ∉ (cleanup killOk closeOk st).toolsServers) := by
  intro killOk closeOk st
  refine ⟨rfl, rfl, ?_, ?_⟩
  · intro s hc
    simp [cleanup, List.mem_filter, hc]
  · intro s hs hc
    constructor <;> simp [cleanup, List.mem_filter, hc, hs]

/-- C9 witness: evaluating the amended cleanup contract on a concrete
state whose single close succeeds: the client entry is released. -/
theorem c9_cleanup_idempotent_and_safe_witness :
    "c" ∉ (cleanup (fun _ => true) (fun _ => true)
      ⟨["c"], ["c"], ["c"], true, none⟩).clients :=
  ((c9_cleanup_idempotent_and_safe (fun _ => true) (fun _ => true)
    ⟨["c"], ["c"], ["c"], true, none⟩).2.2.1) "c" rfl

/-- C2 counterexample: two concurrent callers both pass the
`isInitialized` check before either reaches `startAllServers`
(schedule: caller 0 entry, caller 1 entry, caller 0 start, caller 1
start), so `startAllServers` is invoked twice — refuting "exactly one
underlying startAll occurs" — even though the server is spawned only
once. -/
theorem c2_second_caller_invokes_startall_again :
    (runSched [("s", false)] [true, false, true, false]
        sysState0).shared.startAllCalls = 2 ∧
    (runSched [("s", false)] [true, false, true, false]
        sysState0).shared.spawns = ["s"] :=
  ⟨rfl, rfl⟩

/-- C2 (amended): concurrent `initializeMcp` callers are not
serialized — a second call while the first is in flight runs
`startAllServers` again — but the per-server guards (the
running-handle check and the in-flight startup-promise memo, both
consulted in the same synchronous block as the spawn) ensure that no
server process is ever spawned more than once under any interleaving
of two callers, and a call made when the service is already Ready
leaves the shared state (spawns included) entirely unchanged. -/
theorem c2_no_duplicate_spawns :
    (∀ (cfg : List (String × Bool)) (sched : List Bool) (n : String),
      (runSched cfg sched sysState0).shared.spawns.count n ≤ 1) ∧
    (∀ (cfg : List (String × Bool)) (sched : List Bool) (σ : InitState),
      σ.initFlag = true →
      (runSched cfg sched ⟨σ, .entry, .entry⟩).shared = σ) := by
  constructor
  · intro cfg sched n
    have h0 : spawnInv sysState0.shared := by
      intro m
      simp [sysState0, initState0]
    have h := runSched_spawnInv cfg sched sysState0 h0 n
    rw [h]
    split <;> omega
  · intro cfg sched σ hi
    exact runSched_ready cfg sched σ .entry .entry hi (Or.inl rfl) (Or.inl rfl)

/-- C2 witness: evaluating the amended statement on a concrete config,
schedule and Ready state. -/
theorem c2_no_duplicate_spawns_witness :
    (runSched [("s", false)] [true, false, true, false, true, false]
      sysState0).shared.spawns.count "s" ≤ 1 ∧
    (runSched [("s", false)] [true, false]
      ⟨⟨true, ["s"], [], 3, ["s"]⟩, .entry, .entry⟩).shared =
      ⟨true, ["s"], [], 3, ["s"]⟩ :=
  ⟨c2_no_duplicate_spawns.1 [("s", false)]
      [true, false, true, false, true, false] "s",
    c2_no_duplicate_spawns.2 [("s", false)] [true, false]
      ⟨true, ["s"], [], 3, ["s"]⟩ rfl⟩

/-- C3 counterexample: with one enabled server whose start attempt
succeeds but whose client connection then fails, `startAllServers`
records a successful start, yet initialization as a whole fails (the
service-level loop finds no fully initialized server and throws) —
refuting "if at least one server succeeds, initialization succeeds"
for start-level success. -/
theorem c3_started_but_connect_fails :
    startAllServers cfgC3.mcpServers [] (fun n => (envC3 n).startOk) =
      [("s", true)] ∧
    initMcpOk cfgC3 envC3 = false :=
  ⟨rfl, rfl⟩

/-- C3 (amended): `startAllServers` records one outcome per descriptor
— disabled descriptors are recorded as failures without an attempt,
running ones as successes, and every other descriptor's outcome is its
own independent start result, unaffected by sibling environments — and
overall initialization succeeds exactly when some non-disabled server
completes its full pipeline (start, client connection and tool fetch);
all start attempts failing yields the aggregate hard failure, but a
started server whose client setup fails can still leave initialization
failing. -/
theorem c3_independent_starts_and_escalation :
    (∀ (cfg : List (String × CfgEntry)) (running : List String)
      (startOk : String → Bool) (n : String) (ent : CfgEntry),
      (n, ent) ∈ cfg →
      (n, if ent.disabled then false
          else if running.contains n then true else startOk n) ∈
        startAllServers cfg running startOk) ∧
    (∀ (cfg : List (String × CfgEntry)) (running : List String)
      (s1 s2 : String → Bool) (n : String), s1 n = s2 n →
      alookup (startAllServers cfg running s1) n =
        alookup (startAllServers cfg running s2) n) ∧
    (∀ (cfg : Cfg) (env : String → SrvEnv),
      initMcpOk cfg env = true ↔
        ∃ e ∈ cfg.mcpServers, e.2.disabled = false ∧
          srvFullOk (env e.1) = true) := by
  refine ⟨?_, ?_, ?_⟩
  · intro cfg running startOk n ent hmem
    exact List.mem_map_of_mem _ hmem
  · intro cfg running s1 s2 n hs
    induction cfg with
    | nil => rfl
    | cons e rest ih =>
        by_cases he : e.1 = n
        · simp [startAllServers, alookup, he, hs]
        · simpa [startAllServers, alookup, he] using ih
  · intro cfg env
    constructor
    · intro h
      simp only [initMcpOk] at h
      by_cases hc : (startAllServers cfg.mcpServers []
          fun n => (env n).startOk).any (fun r => r.2) = true
      · rw [if_pos hc] at h
        simp only [svcInitOk, List.any_eq_true, Bool.and_eq_true,
          Bool.not_eq_true'] at h
        obtain ⟨e, he, hd, hf⟩ := h
        exact ⟨e, he, hd, hf⟩
      · rw [if_neg hc] at h
        exact absurd h (by simp)
    · rintro ⟨e, he, hd, hf⟩
      have hstart : (env e.1).startOk = true := by
        have hf' := hf
        simp only [srvFullOk, Bool.and_eq_true] at hf'
        exact hf'.1.1
      have hany : (startAllServers cfg.mcpServers []
          fun n => (env n).startOk).any (fun r => r.2) = true := by
        refine List.any_eq_true.mpr
          ⟨_, List.mem_map_of_mem _ he, ?_⟩
        simp [hd, hstart]
      simp only [initMcpOk]
      rw [if_pos hany]
      simp only [svcInitOk, List.any_eq_true, Bool.and_eq_true,
        Bool.not_eq_true']
      exact ⟨e, he, hd, hf⟩

/-- C3 witness: evaluating the amended statement on concrete inputs:
a configured enabled stopped server's outcome is its own start result,
and an all-green single-server run initializes successfully. -/
theorem c3_independent_starts_and_escalation_witness :
    ("ok", true) ∈ startAllServers [("ok", ⟨false⟩)] [] (fun _ => true) ∧
    initMcpOk ⟨[("ok", ⟨false⟩)]⟩ (fun _ => ⟨true, true, true⟩) = true :=
  ⟨c3_independent_starts_and_escalation.1 [("ok", ⟨false⟩)] []
      (fun _ => true) "ok" ⟨false⟩ (List.mem_cons_self _ _),
    (c3_independent_starts_and_escalation.2.2 ⟨[("ok", ⟨false⟩)]⟩
      (fun _ => ⟨true, true, true⟩)).mpr
      ⟨("ok", ⟨false⟩), List.mem_cons_self _ _, rfl, rfl⟩⟩

lemma shapeHasKey_compileProps (P : List (String × JSch)) (R : List String)
    (q : String) :
    shapeHasKey (compileProps P R) q = true ↔ ∃ e ∈ P, e.1 = q := by
  induction P with
  | nil => simp [compileProps, shapeHasKey]
  | cons kv rest ih =>
      obtain ⟨k, v⟩ := kv
      by_cases hk : k = "webhook"
      · subst hk
        rw [show compileProps (("webhook", v) :: rest) R =
            ("webhook", webhookFixedSchema, false) :: compileProps rest R
          from by simp [compileProps]]
        simp only [shapeHasKey, List.any_cons, Bool.or_eq_true] at ih ⊢
        simp only [List.mem_cons]
        constructor
        · rintro (h | h)
          · exact ⟨("webhook", v), Or.inl rfl, by simpa using h⟩
          · obtain ⟨e, he, hq⟩ := ih.mp h
            exact ⟨e, Or.inr he, hq⟩
        · rintro ⟨e, he | he, hq⟩
          · subst he
            exact Or.inl (by simpa using hq)
          · exact Or.inr (ih.mpr ⟨e, he, hq⟩)
      · rw [show compileProps ((k, v) :: rest) R =
            (k, jsonSchemaToZod (some v), !(R.contains k)) ::
              compileProps rest R
          from by simp [compileProps, hk]]
        simp only [shapeHasKey, List.any_cons, Bool.or_eq_true] at ih ⊢
        simp only [List.mem_cons]
        constructor
        · rintro (h | h)
          · exact ⟨(k, v), Or.inl rfl, by simpa using h⟩
          · obtain ⟨e, he, hq⟩ := ih.mp h
            exact ⟨e, Or.inr he, hq⟩
        · rintro ⟨e, he | he, hq⟩
          · subst he
            exact Or.inl (by simpa using hq)
          · exact Or.inr (ih.mpr ⟨e, he, hq⟩)

lemma comboResult_accepts (subs : List Zod) (t : Option String)
    (e : Option (List Json)) (p : Option (List (String × JSch)))
    (r : Option (List String)) (iS : Option JSch) (iL : Option (List JSch))
    (j : Json) (h : subs ≠ []) :
    accepts (comboResult subs t e p r iS iL) j = true ↔
      ∃ z ∈ subs, accepts z j = true := by
  match subs with
  | [] => exact absurd rfl h
  | [z] =>
      rw [show comboResult [z] t e p r iS iL = z from by simp [comboResult]]
      simp [accepts]
  | z :: z' :: zs =>
      rw [show comboResult (z :: z' :: zs) t e p r iS iL =
          .zUnion (z :: z' :: zs) from by simp [comboResult]]
      exact accepts_zUnion _ _

/-- C4: `jsonSchemaToZod` never throws — it is a total function of the
whole schema grammar, mirroring the source where the top-level
`try/catch` and the guarded sub-operations leave no reachable throw —
and every schema that cannot be classified (`undefined`, a bare
boolean, or an absent/unrecognized `type` with no compilable
`oneOf`/`anyOf` branch) compiles to the accept-anything default
validator. -/
theorem c4_unclassifiable_compiles_to_default :
    ∀ s : Option JSch, unclassifiable s = true →
      jsonSchemaToZod s = createDefaultSchema := by
  intro s h
  match s with
  | none => simp [jsonSchemaToZod]
  | some (.jbool b) => simp [jsonSchemaToZod]
  | some (.jobj t e p r iS iL (some l) a) =>
      simp only [unclassifiable, Bool.and_eq_true, Bool.not_eq_true'] at h
      obtain ⟨ht, hall⟩ := h
      have hnil := compileBranches_nil_of_allBool l hall
      rw [show jsonSchemaToZod (some (.jobj t e p r iS iL (some l) a)) =
          comboResult (compileBranches l) t e p r iS iL from by
            simp [jsonSchemaToZod]]
      rw [hnil]
      rw [show comboResult [] t e p r iS iL =
          (if jsTruthyType t then createSchemaForType t e p r iS iL
           else createDefaultSchema) from by simp [comboResult]]
      by_cases htr : jsTruthyType t = true
      · rw [if_pos htr, createSchemaForType_unrecognized t e p r iS iL ht]
        rfl
      · rw [if_neg htr]
  | some (.jobj t e p r iS iL none (some l)) =>
      simp only [unclassifiable, Bool.and_eq_true, Bool.not_eq_true'] at h
      obtain ⟨ht, hall⟩ := h
      have hnil := compileBranches_nil_of_allBool l hall
      rw [show jsonSchemaToZod (some (.jobj t e p r iS iL none (some l))) =
          comboResult (compileBranches l) t e p r iS iL from by
            simp [jsonSchemaToZod]]
      rw [hnil]
      rw [show comboResult [] t e p r iS iL =
          (if jsTruthyType t then createSchemaForType t e p r iS iL
           else createDefaultSchema) from by simp [comboResult]]
      by_cases htr : jsTruthyType t = true
      · rw [if_pos htr, createSchemaForType_unrecognized t e p r iS iL ht]
        rfl
      · rw [if_neg htr]
  | some (.jobj t e p r iS iL none none) =>
      simp only [unclassifiable, Bool.not_eq_true'] at h
      rw [show jsonSchemaToZod (some (.jobj t e p r iS iL none none)) =
          createSchemaForType t e p r iS iL from by simp [jsonSchemaToZod]]
      rw [createSchemaForType_unrecognized t e p r iS iL h]
      rfl

/-- C4 witness: a schema with an unrecognized `type` is unclassifiable
and compiles to the default accept-anything validator. -/
theorem c4_unclassifiable_compiles_to_default_witness :
    unclassifiable (some (.jobj (some "weird") none none none none none
      none none)) = true ∧
    jsonSchemaToZod (some (.jobj (some "weird") none none none none none
      none none)) = createDefaultSchema :=
  ⟨by decide,
    c4_unclassifiable_compiles_to_default
      (some (.jobj (some "weird") none none none none none none none))
      (by decide)⟩

/-- C5 counterexample: a property named `webhook` that is *not* in the
schema's required-list is nevertheless required by the compiled
validator (its hardcoded replacement is installed without
`.optional()`), so an object schema whose required-list is empty
rejects `{}` — whereas the identical schema with the property named
`other` accepts `{}` — refuting "the compiled validator requires
exactly the properties listed in the schema's required-list" for every
object schema. -/
theorem c5_webhook_breaks_required_contract :
    accepts (jsonSchemaToZod (some (objSchema
        [("webhook", .jobj (some "string") none none none none none none
          none)] [])))
      (.obj []) = false ∧
    accepts (jsonSchemaToZod (some (objSchema
        [("other", .jobj (some "string") none none none none none none
          none)] [])))
      (.obj []) = true := by
  constructor <;>
    simp [objSchema, jsonSchemaToZod, createSchemaForType, compileProps,
      accepts, parse, parseShape, lookupField, webhookFixedSchema]

/-- C5 (amended): for every object schema none of whose properties is
named `webhook`, the compiled validator accepts an object exactly when
every declared property that is present validates against its compiled
schema and every declared property that is absent is outside the
required-list (so required-listed declared properties are required and
all others optional); unknown properties never cause rejection and are
passed through into the parse output; and the concrete round-trip
schema `{type: object, properties: {topic: string}, required: [topic]}`
accepts `{topic: "x"}` and rejects `{}`. -/
theorem c5_object_validator_contract :
    (∀ (P : List (String × JSch)) (R : List String)
      (fs : List (String × Json)),
      (∀ kv ∈ P, kv.1 ≠ "webhook") →
      (accepts (jsonSchemaToZod (some (objSchema P R))) (.obj fs) = true ↔
        ∀ kv ∈ P,
          (∀ v, lookupField fs kv.1 = some v →
            accepts (jsonSchemaToZod (some kv.2)) v = true) ∧
          (lookupField fs kv.1 = none → R.contains kv.1 = false))) ∧
    (∀ (P : List (String × JSch)) (R : List String)
      (fs out : List (String × Json)),
      parse (jsonSchemaToZod (some (objSchema P R))) (.obj fs) =
        some (.obj out) →
      ∀ kv ∈ fs, (∀ pv ∈ P, pv.1 ≠ kv.1) → kv ∈ out) ∧
    accepts (jsonSchemaToZod (some topicSchema))
      (.obj [("topic", .str "x")]) = true ∧
    accepts (jsonSchemaToZod (some topicSchema)) (.obj []) = false := by
  have hcomp : ∀ (P : List (String × JSch)) (R : List String),
      jsonSchemaToZod (some (objSchema P R)) =
        .zObject (compileProps P R) true := by
    intro P R
    simp [objSchema, jsonSchemaToZod, createSchemaForType]
  refine ⟨?_, ?_, ?_, ?_⟩
  · intro P R fs hw
    rw [hcomp, accepts_zObject, parseShape_isSome_iff,
      compileProps_nowebhook P R hw]
    constructor
    · intro h kv hkv
      have hthis := h _ (List.mem_map_of_mem _ hkv)
      refine ⟨fun v hv => hthis.1 v hv, fun hn => ?_⟩
      have h2 := hthis.2 hn
      simpa using h2
    · intro h ent hent
      obtain ⟨kv, hkv, rfl⟩ := List.mem_map.mp hent
      refine ⟨fun v hv => (h kv hkv).1 v hv, fun hn => ?_⟩
      have h2 := (h kv hkv).2 hn
      simpa using h2
  · intro P R fs out hp kv hkv hnd
    rw [hcomp] at hp
    cases hps : parseShape (compileProps P R) fs with
    | none =>
        rw [show parse (.zObject (compileProps P R) true) (.obj fs) = none
          from by simp [parse, hps]] at hp
        exact Option.noConfusion hp
    | some declOut =>
        rw [show parse (.zObject (compileProps P R) true) (.obj fs) =
            some (.obj (declOut ++ fs.filter
              (fun e => ¬ shapeHasKey (compileProps P R) e.1)))
          from by simp [parse, hps]] at hp
        have hout : declOut ++ fs.filter
            (fun e => ¬ shapeHasKey (compileProps P R) e.1) = out := by
          cases hp
          rfl
        rw [← hout]
        refine List.mem_append_right _ ?_
        refine List.mem_filter.mpr ⟨hkv, ?_⟩
        have hnokey : shapeHasKey (compileProps P R) kv.1 = false := by
          rw [Bool.eq_false_iff]
          intro hcontra
          obtain ⟨e, he, hq⟩ := (shapeHasKey_compileProps P R kv.1).mp hcontra
          exact hnd e he hq
        simp [hnokey]
  · simp [topicSchema, jsonSchemaToZod, createSchemaForType, compileProps,
      accepts, parse, parseShape, lookupField]
  · simp [topicSchema, jsonSchemaToZod, createSchemaForType, compileProps,
      accepts, parse, parseShape, lookupField]

/-- C5 witness: evaluating the amended object contract on the concrete
topic schema: the validator accepts an object carrying the required
`topic` string. -/
theorem c5_object_validator_contract_witness :
    accepts (jsonSchemaToZod (some (objSchema
        [("topic", .jobj (some "string") none none none none none none
          none)] ["topic"])))
      (.obj [("topic", .str "x")]) = true := by
  refine (c5_object_validator_contract.1
    [("topic", .jobj (some "string") none none none none none none none)]
    ["topic"] [("topic", .str "x")] (by decide)).mpr ?_
  intro kv hkv
  simp only [List.mem_singleton] at hkv
  subst hkv
  constructor
  · intro v hv
    rw [show lookupField [("topic", Json.str "x")] "topic" =
        some (.str "x") from by simp [lookupField]] at hv
    cases hv
    simp [jsonSchemaToZod, createSchemaForType, accepts, parse]
  · intro hn
    rw [show lookupField [("topic", Json.str "x")] "topic" =
        some (.str "x") from by simp [lookupField]] at hn
    exact Option.noConfusion hn

/-- C8 counterexample: a `oneOf` whose only branch is a bare boolean
(which cannot be compiled) on a schema declaring `type: string` falls
back to `createSchemaForType` — producing the string validator, which
rejects the number 5 — not to the accept-anything validator the claim
promises (which accepts 5). -/
theorem c8_no_branch_falls_back_to_parent_type :
    jsonSchemaToZod (some (.jobj (some "string") none none none none none
      (some [.jbool true]) none)) = .zString ∧
    accepts (jsonSchemaToZod (some (.jobj (some "string") none none none
      none none (some [.jbool true]) none))) (.num 5) = false ∧
    accepts createDefaultSchema (.num 5) = true := by
  refine ⟨?_, ?_, ?_⟩
  · simp [jsonSchemaToZod, compileBranches, comboResult, jsTruthyType,
      createSchemaForType]
  · simp [jsonSchemaToZod, compileBranches, comboResult, jsTruthyType,
      createSchemaForType, accepts, parse]
  · simp [createDefaultSchema, accepts, parse]

/-- C8 (amended): for a `oneOf` or `anyOf` schema with at least one
compilable (non-boolean) branch, the compiled validator accepts an
input exactly when some compiled branch accepts it (so one branch
collapses to that branch's validator and several become an any-of
union over the compilable branches); when no branch can be compiled,
compilation falls back to the parent schema's type-based validator
when the schema declares a truthy `type`, and to the accept-anything
default only otherwise — it never fails. -/
theorem c8_combinator_semantics :
    (∀ (t : Option String) (e : Option (List Json))
      (p : Option (List (String × JSch))) (r : Option (List String))
      (iS : Option JSch) (iL : Option (List JSch)) (l : List JSch)
      (a : Option (List JSch)) (j : Json),
      compileBranches l ≠ [] →
      (accepts (jsonSchemaToZod (some (.jobj t e p r iS iL (some l) a)))
          j = true ↔
        ∃ z ∈ compileBranches l, accepts z j = true)) ∧
    (∀ (t : Option String) (e : Option (List Json))
      (p : Option (List (String × JSch))) (r : Option (List String))
      (iS : Option JSch) (iL : Option (List JSch)) (l : List JSch)
      (j : Json),
      compileBranches l ≠ [] →
      (accepts (jsonSchemaToZod (some (.jobj t e p r iS iL none (some l))))
          j = true ↔
        ∃ z ∈ compileBranches l, accepts z j = true)) ∧
    (∀ (t : Option String) (e : Option (List Json))
      (p : Option (List (String × JSch))) (r : Option (List String))
      (iS : Option JSch) (iL : Option (List JSch)) (l : List JSch)
      (a : Option (List JSch)),
      compileBranches l = [] →
      jsonSchemaToZod (some (.jobj t e p r iS iL (some l) a)) =
        (if jsTruthyType t then createSchemaForType t e p r iS iL
         else createDefaultSchema)) ∧
    (∀ (t : Option String) (e : Option (List Json))
      (p : Option (List (String × JSch))) (r : Option (List String))
      (iS : Option JSch) (iL : Option (List JSch)) (l : List JSch),
      compileBranches l = [] →
      jsonSchemaToZod (some (.jobj t e p r iS iL none (some l))) =
        (if jsTruthyType t then createSchemaForType t e p r iS iL
         else createDefaultSchema)) := by
  have hone : ∀ (t : Option String) (e : Option (List Json))
      (p : Option (List (String × JSch))) (r : Option (List String))
      (iS : Option JSch) (iL : Option (List JSch)) (l : List JSch)
      (a : Option (List JSch)),
      jsonSchemaToZod (some (.jobj t e p r iS iL (some l) a)) =
        comboResult (compileBranches l) t e p r iS iL := by
    intro t e p r iS iL l a
    simp [jsonSchemaToZod]
  have htwo : ∀ (t : Option String) (e : Option (List Json))
      (p : Option (List (String × JSch))) (r : Option (List String))
      (iS : Option JSch) (iL : Option (List JSch)) (l : List JSch),
      jsonSchemaToZod (some (.jobj t e p r iS iL none (some l))) =
        comboResult (compileBranches l) t e p r iS iL := by
    intro t e p r iS iL l
    simp [jsonSchemaToZod]
  have hempty : ∀ (t : Option String) (e : Option (List Json))
      (p : Option (List (String × JSch))) (r : Option (List String))
      (iS : Option JSch) (iL : Option (List JSch)),
      comboResult [] t e p r iS iL =
        (if jsTruthyType t then createSchemaForType t e p r iS iL
         else createDefaultSchema) := by
    intro t e p r iS iL
    simp [comboResult]
  refine ⟨?_, ?_, ?_, ?_⟩
  · intro t e p r iS iL l a j h
    rw [hone]
    exact comboResult_accepts _ t e p r iS iL j h
  · intro t e p r iS iL l j h
    rw [htwo]
    exact comboResult_accepts _ t e p r iS iL j h
  · intro t e p r iS iL l a h
    rw [hone, h, hempty]
  · intro t e p r iS iL l h
    rw [htwo, h, hempty]

/-- C8 witness: evaluating the amended combinator semantics: a `oneOf`
with a single compilable string branch accepts a string input, and an
empty `anyOf` on an untyped schema compiles to the default validator. -/
theorem c8_combinator_semantics_witness :
    accepts (jsonSchemaToZod (some (.jobj none none none none none none
      (some [.jobj (some "string") none none none none none none none])
      none))) (.str "x") = true ∧
    jsonSchemaToZod (some (.jobj none none none none none none none
      (some []))) = createDefaultSchema := by
  constructor
  · refine (c8_combinator_semantics.1 none none none none none none
      [.jobj (some "string") none none none none none none none] none
      (.str "x") (by simp [compileBranches])).mpr ?_
    refine ⟨jsonSchemaToZod (some (.jobj (some "string") none none none
      none none none none)), ?_, ?_⟩
    · simp [compileBranches]
    · simp [jsonSchemaToZod, createSchemaForType, accepts, parse]
  · have h := c8_combinator_semantics.2.2.2 none none none none none none
      [] (by simp [compileBranches])
    simpa [jsTruthyType] using h

/-- C10: every property named `webhook` in an object schema is compiled
to the fixed hardcoded validator
`z.object({url: z.string(), headers: z.record(z.string()).optional()})`
regardless of the schema it declares and regardless of whether it is in
the required-list — so two tools (or positions) declaring different
`webhook` schemas get identical validators; the fixed validator
requires a string `url`, optionally takes a string-valued `headers`
record, and the `webhook` property itself is always required (an object
omitting it is rejected even with an empty required-list). -/
theorem c10_webhook_hardcoded_validator :
    (∀ (P1 P2 : List (String × JSch)) (v : JSch) (R : List String),
      compileProps (P1 ++ ("webhook", v) :: P2) R =
        compileProps P1 R ++
          ("webhook", webhookFixedSchema, false) :: compileProps P2 R) ∧
    (∀ (v1 v2 : JSch) (R1 R2 : List String),
      jsonSchemaToZod (some (objSchema [("webhook", v1)] R1)) =
        jsonSchemaToZod (some (objSchema [("webhook", v2)] R2))) ∧
    (∀ v : JSch,
      accepts (jsonSchemaToZod (some (objSchema [("webhook", v)] [])))
        (.obj []) = false) ∧
    accepts webhookFixedSchema (.obj [("url", .str "u")]) = true ∧
    accepts webhookFixedSchema
      (.obj [("url", .str "u"), ("headers", .obj [("h", .str "v")])]) =
        true ∧
    accepts webhookFixedSchema (.obj [("url", .num 1)]) = false ∧
    accepts webhookFixedSchema (.obj []) = false := by
  refine ⟨?_, ?_, ?_, ?_, ?_, ?_, ?_⟩
  · intro P1 P2 v R
    induction P1 with
    | nil => simp [compileProps]
    | cons kv rest ih =>
        obtain ⟨k, w⟩ := kv
        by_cases hk : k = "webhook"
        · subst hk
          rw [List.cons_append]
          rw [show compileProps (("webhook", w) ::
              (rest ++ ("webhook", v) :: P2)) R =
              ("webhook", webhookFixedSchema, false) ::
                compileProps (rest ++ ("webhook", v) :: P2) R
            from by simp [compileProps]]
          rw [show compileProps (("webhook", w) :: rest) R =
              ("webhook", webhookFixedSchema, false) :: compileProps rest R
            from by simp [compileProps]]
          rw [ih, List.cons_append]
        · rw [List.cons_append]
          rw [show compileProps ((k, w) ::
              (rest ++ ("webhook", v) :: P2)) R =
              (k, jsonSchemaToZod (some w), !(R.contains k)) ::
                compileProps (rest ++ ("webhook", v) :: P2) R
            from by simp [compileProps, hk]]
          rw [show compileProps ((k, w) :: rest) R =
              (k, jsonSchemaToZod (some w), !(R.contains k)) ::
                compileProps rest R
            from by simp [compileProps, hk]]
          rw [ih, List.cons_append]
  · intro v1 v2 R1 R2
    simp [objSchema, jsonSchemaToZod, createSchemaForType, compileProps]
  · intro v
    simp [objSchema, jsonSchemaToZod, createSchemaForType, compileProps,
      accepts, parse, parseShape, lookupField]
  · simp [webhookFixedSchema, accepts, parse, parseShape, parseFields,
      lookupField]
  · simp [webhookFixedSchema, accepts, parse, parseShape, parseFields,
      lookupField]
  · simp [webhookFixedSchema, accepts, parse, parseShape, parseFields,
      lookupField]
  · simp [webhookFixedSchema, accepts, parse, parseShape, parseFields,
      lookupField]

end McpBridge
